import Mathlib

/-!
Verification of the request-orchestration layer of the murmur desktop utility:
the capacity-bounded TTL cache (`CacheManager`), the sliding-window
`RateLimiter`, the job orchestrator (`AudioProcessor`), and the remote-call
collaborator (`OpenAIClient`).  Each definition is a shallow embedding of the
corresponding TypeScript function; `Date.now()` is passed explicitly as a
`now` parameter, JavaScript `Map` objects become insertion-ordered association
lists with unique keys (deletion is modelled as filtering the key out), and
the JavaScript falsy-default idiom `x || d` becomes `jsOrDefault`.
-/

/-- Models the JavaScript expression `v || d` for an optional non-negative
number `v`: `undefined` and `0` are falsy and fall back to the default. -/
def jsOrDefault (v : Option Nat) (d : Nat) : Nat :=
  match v with
  | none => d
  | some n => if n = 0 then d else n

/-- Models the JavaScript expression `s || d` for an optional string:
`undefined` and the empty string are falsy and fall back to the default. -/
def jsOrDefaultStr (v : Option String) (d : String) : String :=
  match v with
  | none => d
  | some s => if s = "" then d else s

namespace CacheManager

/-- One cache entry, as in `CacheEntry<T>` of `cache-manager.ts`. -/
structure CacheEntry (T : Type) where
  data : T
  timestamp : Nat
  ttl : Nat
  accessCount : Nat
  lastAccessed : Nat
deriving Repr, DecidableEq

/-- The mutable state of one `CacheManager<T>` instance: the backing `Map`
(as an insertion-ordered association list) plus the two configuration
constants fixed by the constructor. -/
structure CacheState (T : Type) where
  entries : List (String × CacheEntry T)
  maxSize : Nat
  defaultTtl : Nat
deriving Repr, DecidableEq

/-- Models the constructor `new CacheManager(options)`: `maxSize` defaults to
100 and `defaultTtl` to 24 h (86400000 ms) through the falsy-default idiom. -/
def mkCacheManager (T : Type) (maxSize? defaultTtl? : Option Nat) : CacheState T :=
  { entries := [], maxSize := jsOrDefault maxSize? 100,
    defaultTtl := jsOrDefault defaultTtl? 86400000 }

/-- Replace the first entry bound to `k` (JavaScript mutates the entry object
returned by `Map.get`, which is the unique binding of `k`). -/
def updateFirst {T : Type} (l : List (String × CacheEntry T)) (k : String)
    (f : CacheEntry T → CacheEntry T) : List (String × CacheEntry T) :=
  match l with
  | [] => []
  | p :: rest => if p.1 == k then (p.1, f p.2) :: rest else p :: updateFirst rest k f

/-- Models `CacheManager.get`: absent keys and expired entries (removed on
sight) give `null`; a live entry gets its access statistics bumped. -/
def get {T : Type} (c : CacheState T) (key : String) (now : Nat) :
    Option T × CacheState T :=
  match c.entries.find? (fun p => p.1 == key) with
  | none => (none, c)
  | some (_, e) =>
    if e.timestamp + e.ttl < now then
      (none, { c with entries := c.entries.filter (fun p => p.1 != key) })
    else
      let touched := updateFirst c.entries key
        (fun e0 => { e0 with accessCount := e0.accessCount + 1, lastAccessed := now })
      (some e.data, { c with entries := touched })

/-- Models the `evictOldest` LRU sweep: fold over the entries keeping the
first strictly-smallest `lastAccessed`, then delete that key — but only when
the JavaScript guard `if (oldestKey)` holds, i.e. the key is truthy
(non-null and not the empty string). -/
def findOldest {T : Type} (l : List (String × CacheEntry T)) : Option (String × Nat) :=
  l.foldl
    (fun acc p =>
      match acc with
      | none => some (p.1, p.2.lastAccessed)
      | some (k0, t0) => if p.2.lastAccessed < t0 then some (p.1, p.2.lastAccessed) else some (k0, t0))
    none

/-- Models `CacheManager.evictOldest`. -/
def evictOldest {T : Type} (c : CacheState T) : CacheState T :=
  if c.entries.length = 0 then c
  else
    match findOldest c.entries with
    | none => c
    | some (k, _) =>
      if k = "" then c
      else { c with entries := c.entries.filter (fun p => p.1 != k) }

/-- Models `CacheManager.set`: update in place when the key is present,
otherwise evict at capacity and append a fresh entry.  The stored ttl is
`ttl || defaultTtl`, so an explicit `0` falls back to the default. -/
def set {T : Type} (c : CacheState T) (key : String) (data : T)
    (ttl : Option Nat) (now : Nat) : CacheState T :=
  if (c.entries.find? (fun p => p.1 == key)).isSome then
    let updated := updateFirst c.entries key
      (fun e0 => { data := data, timestamp := now,
                   ttl := jsOrDefault ttl c.defaultTtl,
                   accessCount := e0.accessCount + 1, lastAccessed := now })
    { c with entries := updated }
  else
    let c1 := if c.maxSize ≤ c.entries.length then evictOldest c else c
    let fresh : CacheEntry T :=
      { data := data, timestamp := now, ttl := jsOrDefault ttl c.defaultTtl,
        accessCount := 1, lastAccessed := now }
    { c1 with entries := c1.entries ++ [(key, fresh)] }

/-- Models `CacheManager.has`, which is literally `this.get(key) !== null`. -/
def has {T : Type} (c : CacheState T) (key : String) (now : Nat) :
    Bool × CacheState T :=
  let r := get c key now
  (r.1.isSome, r.2)

/-- Models `CacheManager.delete` (`Map.delete` returns whether the key was
present). -/
def deleteKey {T : Type} (c : CacheState T) (key : String) : Bool × CacheState T :=
  ((c.entries.find? (fun p => p.1 == key)).isSome,
   { c with entries := c.entries.filter (fun p => p.1 != key) })

/-- Models `CacheManager.clear`. -/
def clear {T : Type} (c : CacheState T) : CacheState T :=
  { c with entries := [] }

/-- Models `CacheManager.cleanup`: sweep out every expired entry. -/
def cleanup {T : Type} (c : CacheState T) (now : Nat) : CacheState T :=
  { c with entries := c.entries.filter (fun p => !(p.2.timestamp + p.2.ttl < now)) }

end CacheManager

/-- The mutable state of one `RateLimiter` instance from `security-utils.ts`:
the recorded call timestamps plus the two constructor constants.  Times are
integers (milliseconds), as `Date.now()` differences are exact there. -/
structure RateLimiter where
  calls : List Int
  maxCalls : Nat
  windowMs : Int
deriving Repr, DecidableEq

namespace RateLimiter

/-- Models `new RateLimiter(maxCalls, windowMs)`. -/
def mkRateLimiter (maxCalls : Nat) (windowMs : Int) : RateLimiter :=
  { calls := [], maxCalls := maxCalls, windowMs := windowMs }

/-- Models the default construction `new RateLimiter()`, whose parameter
defaults are 10 calls per 60000 ms. -/
def mkRateLimiterDefault : RateLimiter := mkRateLimiter 10 60000

/-- Models `RateLimiter.isAllowed`: drop timestamps with
`now - timestamp >= windowMs`, then allow and record `now` exactly when the
remaining count is below `maxCalls`. -/
def isAllowed (rl : RateLimiter) (now : Int) : Bool × RateLimiter :=
  let pruned := rl.calls.filter (fun ts => decide (now - ts < rl.windowMs))
  if pruned.length < rl.maxCalls then
    (true, { rl with calls := pruned ++ [now] })
  else
    (false, { rl with calls := pruned })

/-- Models `RateLimiter.getTimeUntilReset`. -/
def getTimeUntilReset (rl : RateLimiter) (now : Int) : Int :=
  match rl.calls with
  | [] => 0
  | c :: rest => max 0 (rest.foldl min c + rl.windowMs - now)

end RateLimiter

/-!
SHA-256, byte-for-byte as `crypto.createHash('sha256')` computes it, over
messages given as lists of byte values, together with the UTF-8 encoding
`Hash.update` applies to string input and the lowercase-hex rendering of
`digest('hex')`.
-/

namespace Sha256

/-- Word arithmetic is on 32-bit values; `M32` is the modulus. -/
def M32 : Nat := 4294967296

/-- Right rotation of a 32-bit word. -/
def rotr (n x : Nat) : Nat := ((x >>> n) ||| (x <<< (32 - n))) % M32

/-- The `Ch` bitwise chooser of FIPS 180-4. -/
def ch (x y z : Nat) : Nat := (x &&& y) ^^^ ((x ^^^ (M32 - 1)) &&& z)

/-- The `Maj` bitwise majority of FIPS 180-4. -/
def maj (x y z : Nat) : Nat := (x &&& y) ^^^ (x &&& z) ^^^ (y &&& z)

/-- Big sigma-0. -/
def bsig0 (x : Nat) : Nat := rotr 2 x ^^^ rotr 13 x ^^^ rotr 22 x

/-- Big sigma-1. -/
def bsig1 (x : Nat) : Nat := rotr 6 x ^^^ rotr 11 x ^^^ rotr 25 x

/-- Small sigma-0. -/
def ssig0 (x : Nat) : Nat := rotr 7 x ^^^ rotr 18 x ^^^ (x >>> 3)

/-- Small sigma-1. -/
def ssig1 (x : Nat) : Nat := rotr 17 x ^^^ rotr 19 x ^^^ (x >>> 10)

/-- The 64 round constants of FIPS 180-4 (in decimal). -/
def K : List Nat :=
  [1116352408, 1899447441, 3049323471, 3921009573, 961987163,
   1508970993, 2453635748, 2870763221, 3624381080, 310598401,
   607225278, 1426881987, 1925078388, 2162078206, 2614888103,
   3248222580, 3835390401, 4022224774, 264347078, 604807628,
   770255983, 1249150122, 1555081692, 1996064986, 2554220882,
   2821834349, 2952996808, 3210313671, 3336571891, 3584528711,
   113926993, 338241895, 666307205, 773529912, 1294757372,
   1396182291, 1695183700, 1986661051, 2177026350, 2456956037,
   2730485921, 2820302411, 3259730800, 3345764771, 3516065817,
   3600352804, 4094571909, 275423344, 430227734, 506948616,
   659060556, 883997877, 958139571, 1322822218, 1537002063,
   1747873779, 1955562222, 2024104815, 2227730452, 2361852424,
   2428436474, 2756734187, 3204031479, 3329325298]

/-- The eight 32-bit working registers of the compression function. -/
structure Regs where
  a : Nat
  b : Nat
  c : Nat
  d : Nat
  e : Nat
  f : Nat
  g : Nat
  h : Nat
deriving Repr, DecidableEq

/-- The initial hash value of SHA-256 (in decimal). -/
def initH : Regs :=
  ⟨1779033703, 3144134277, 1013904242, 2773480762,
   1359893119, 2600822924, 528734635, 1541459225⟩

/-- One step of message-schedule extension: append `w[t]` for `t ≥ 16`. -/
def scheduleStep (ws : List Nat) : List Nat :=
  ws ++ [(ssig1 (ws.getD (ws.length - 2) 0) + ws.getD (ws.length - 7) 0 +
          ssig0 (ws.getD (ws.length - 15) 0) + ws.getD (ws.length - 16) 0) % M32]

/-- Extend a 16-word block to the 64-word message schedule. -/
def schedule (block : List Nat) : List Nat :=
  (List.range 48).foldl (fun ws _ => scheduleStep ws) block

/-- One round of the compression function, consuming a `(kᵢ, wᵢ)` pair. -/
def round (st : Regs) (kw : Nat × Nat) : Regs :=
  let t1 := (st.h + bsig1 st.e + ch st.e st.f st.g + kw.1 + kw.2) % M32
  let t2 := (bsig0 st.a + maj st.a st.b st.c) % M32
  ⟨(t1 + t2) % M32, st.a, st.b, st.c, (st.d + t1) % M32, st.e, st.f, st.g⟩

/-- Compress one 16-word block into the running hash value. -/
def compress (st : Regs) (block : List Nat) : Regs :=
  let fin := ((K.zip (schedule block)).foldl round st)
  ⟨(st.a + fin.a) % M32, (st.b + fin.b) % M32, (st.c + fin.c) % M32,
   (st.d + fin.d) % M32, (st.e + fin.e) % M32, (st.f + fin.f) % M32,
   (st.g + fin.g) % M32, (st.h + fin.h) % M32⟩

/-- The 8-byte big-endian encoding of the message bit length. -/
def lenBytes (n : Nat) : List Nat :=
  [(n >>> 56) % 256, (n >>> 48) % 256, (n >>> 40) % 256, (n >>> 32) % 256,
   (n >>> 24) % 256, (n >>> 16) % 256, (n >>> 8) % 256, n % 256]

/-- Merkle–Damgård padding: `0x80`, zeros to 56 mod 64, then the bit length. -/
def padBytes (msg : List Nat) : List Nat :=
  let len := msg.length
  let zeros := (64 - ((len + 9) % 64)) % 64
  msg ++ [0x80] ++ List.replicate zeros 0 ++ lenBytes (8 * len)

/-- Pack bytes into big-endian 32-bit words, four at a time (fuel-driven so
that the definition reduces in the kernel). -/
def bytesToWords : Nat → List Nat → List Nat
  | 0, _ => []
  | _, [] => []
  | fuel + 1, bs =>
    (((bs.getD 0 0 * 256 + bs.getD 1 0) * 256 + bs.getD 2 0) * 256 + bs.getD 3 0)
      :: bytesToWords fuel (bs.drop 4)

/-- Split a word list into 16-word blocks (fuel-driven). -/
def chunk16 : Nat → List Nat → List (List Nat)
  | 0, _ => []
  | _, [] => []
  | fuel + 1, ws => ws.take 16 :: chunk16 fuel (ws.drop 16)

/-- The four big-endian bytes of a 32-bit word. -/
def wordBytes (w : Nat) : List Nat :=
  [(w >>> 24) % 256, (w >>> 16) % 256, (w >>> 8) % 256, w % 256]

/-- The 32 digest bytes of a final hash value. -/
def digestBytes (st : Regs) : List Nat :=
  wordBytes st.a ++ wordBytes st.b ++ wordBytes st.c ++ wordBytes st.d ++
  wordBytes st.e ++ wordBytes st.f ++ wordBytes st.g ++ wordBytes st.h

/-- SHA-256 of a byte-list message, as 32 digest bytes. -/
def sha256Bytes (msg : List Nat) : List Nat :=
  let padded := padBytes msg
  let words := bytesToWords padded.length padded
  let blocks := chunk16 words.length words
  digestBytes (blocks.foldl compress initH)

/-- The sixteen lowercase hexadecimal digit characters. -/
def hexChars : List Char := "0123456789abcdef".data

/-- The lowercase hex digit for a nibble. -/
def hexDigitChar (n : Nat) : Char := hexChars.getD (n % 16) '0'

/-- Lowercase hex rendering of a byte list, as `digest('hex')` emits it. -/
def bytesToHex (bs : List Nat) : String :=
  ⟨bs.foldr (fun b acc => hexDigitChar (b / 16) :: hexDigitChar (b % 16) :: acc) []⟩

/-- The hex digest string of a byte-list message. -/
def sha256Hex (msg : List Nat) : String := bytesToHex (sha256Bytes msg)

/-- UTF-8 encoding of one character, as Node encodes string input. -/
def utf8EncodeChar (c : Char) : List Nat :=
  let n := c.toNat
  if n < 128 then [n]
  else if n < 2048 then [192 ||| (n >>> 6), 128 ||| (n &&& 63)]
  else if n < 65536 then
    [224 ||| (n >>> 12), 128 ||| ((n >>> 6) &&& 63), 128 ||| (n &&& 63)]
  else
    [240 ||| (n >>> 18), 128 ||| ((n >>> 12) &&& 63),
     128 ||| ((n >>> 6) &&& 63), 128 ||| (n &&& 63)]

/-- UTF-8 encoding of a string. -/
def utf8Encode (s : String) : List Nat :=
  s.data.foldr (fun c acc => utf8EncodeChar c ++ acc) []

end Sha256

/-!
The serialization `JSON.stringify({ content, options })` used by
`CacheManager.generateContentKey`.  JavaScript objects are insertion-ordered
maps, so an object value is an ordered list of fields; a JSON number carries
its ECMAScript `ToString` rendering (`0.5` renders as `"0.5"`).  The option
records passed at the call sites are flat, so field values are primitives.
-/

/-- A primitive JSON value as it appears in an options record. -/
inductive JsonVal where
  | str (s : String)
  | num (render : String)
  | jbool (b : Bool)
  | jnull
deriving Repr, DecidableEq

namespace JsonSer

open Sha256 in
/-- Escaping of one character inside a JSON string literal, exactly as
`JSON.stringify` performs it. -/
def escapeChar (c : Char) : List Char :=
  if c = '"' then ['\\', '"']
  else if c = '\\' then ['\\', '\\']
  else if c = Char.ofNat 8 then ['\\', 'b']
  else if c = Char.ofNat 9 then ['\\', 't']
  else if c = Char.ofNat 10 then ['\\', 'n']
  else if c = Char.ofNat 12 then ['\\', 'f']
  else if c = Char.ofNat 13 then ['\\', 'r']
  else if c.toNat < 32 then
    ['\\', 'u', '0', '0', hexDigitChar (c.toNat / 16), hexDigitChar (c.toNat % 16)]
  else [c]

/-- A JSON string literal with quotes and escapes. -/
def quoteJson (s : String) : String :=
  ⟨'"' :: s.data.foldr (fun c acc => escapeChar c ++ acc) ['"']⟩

/-- Rendering of a primitive JSON value. -/
def renderJson : JsonVal → String
  | .str s => quoteJson s
  | .num r => r
  | .jbool true => "true"
  | .jbool false => "false"
  | .jnull => "null"

/-- Rendering of a flat JSON object in field order. -/
def renderObj (fields : List (String × JsonVal)) : String :=
  "\x7b" ++ String.intercalate ","
    (fields.map (fun kv => quoteJson kv.1 ++ ":" ++ renderJson kv.2)) ++ "\x7d"

/-- The serialization of `{ content, options }`; when `options` is
`undefined`, `JSON.stringify` drops the field. -/
def combinedJson (content : String) (options : Option (List (String × JsonVal))) : String :=
  "\x7b" ++ quoteJson "content" ++ ":" ++ quoteJson content ++
    (match options with
     | none => ""
     | some o => "," ++ quoteJson "options" ++ ":" ++ renderObj o) ++ "\x7d"

end JsonSer

namespace CacheManager

/-- Models `CacheManager.generateContentKey`: the SHA-256 hex digest of
`JSON.stringify({ content, options })`. -/
def generateContentKey (content : String) (options : Option (List (String × JsonVal))) : String :=
  Sha256.sha256Hex (Sha256.utf8Encode (JsonSer.combinedJson content options))

end CacheManager

/-!
The job orchestrator `AudioProcessor` of `audio-processor.ts`.  Its
single-threaded event-loop run of `processAudioFile` is embedded as a pure
function of the scheduler's choices: which of the mutually exclusive
settlement paths the awaited operations take (`RunOutcome`), and how many
simulated-progress timer ticks fire while the remote call is in flight (the
`ticks` list of random increments, each drawn from `[2, 7)`).  The in-flight
job registry `currentJobs` is the key list of the underlying `Map`, and the
emitted `progress` events are collected as a trace of `(jobId, event)` pairs.
-/

namespace AudioProcessor

/-- The progress stages of `AudioProcessingProgress`. -/
inductive Stage where
  | preparing
  | transcribing
  | formatting
  | saving
  | complete
  | error
deriving Repr, DecidableEq

/-- One emitted progress event (the `details` payload is omitted; no claim
mentions it). -/
structure ProgressEvent where
  stage : Stage
  progress : ℚ
  message : String
deriving Repr, DecidableEq

/-- The `TranscriptionResult` shape returned by `processAudioFile` and by the
collaborator. -/
structure TranscriptionResult where
  success : Bool
  text : Option String := none
  duration : Option ℚ := none
  error : Option String := none
deriving Repr, DecidableEq

/-- How the `Promise.race` of the remote call against the abort listener
settles. -/
inductive RaceResult where
  | settled (r : TranscriptionResult)
  | abortedRejected
deriving Repr, DecidableEq

/-- The scheduler's choice of settlement path for one `processAudioFile`
run: the input file is missing, `fs.stat` (or another awaited step before
the call) throws unexpectedly, the abort signal is already set at the
explicit checkpoint, or the race is reached after `ticks` timer ticks. -/
inductive RunOutcome where
  | fileMissing
  | statThrows (msg : String)
  | abortedAtCheckpoint
  | raced (ticks : List ℚ) (res : RaceResult)
deriving Repr, DecidableEq

/-- Models `Map.set` on `currentJobs`: keys are unique, insertion ordered. -/
def registerJob (jobs : List String) (jobId : String) : List String :=
  if jobId ∈ jobs then jobs else jobs ++ [jobId]

/-- Models `Map.delete` on `currentJobs`. -/
def deregisterJob (jobs : List String) (jobId : String) : List String :=
  jobs.filter (fun j => j != jobId)

/-- Models `getCurrentJobs`: the snapshot of registered job ids. -/
def getCurrentJobs (jobs : List String) : List String := jobs

/-- The failure result built by the `catch` block of `processAudioFile`. -/
def errorResult (msg : String) : TranscriptionResult :=
  { success := false, error := some msg }

/-- The `error`-stage progress event emitted by the `catch` block. -/
def catchEvent (jobId msg : String) : String × ProgressEvent :=
  (jobId, ⟨.error, 0, "処理エラー: " ++ msg⟩)

/-- The events of the simulated-progress interval: each tick that finds the
counter below 75 advances it by its random increment and emits a
`transcribing` event clamped at 75. -/
def tickEvents (jobId : String) : ℚ → List ℚ → List (String × ProgressEvent)
  | _, [] => []
  | p, inc :: rest =>
    if p < 75 then
      (jobId, ⟨.transcribing, min (p + inc) 75, "音声解析中..."⟩)
        :: tickEvents jobId (p + inc) rest
    else tickEvents jobId p rest

/-- Models `transcribeWithProgress`: the tick events fire while the race is
pending; settlement clears the interval and either returns the collaborator
result (after the 80 % event) or rethrows the abort rejection. -/
def transcribeWithProgress (jobId : String) (ticks : List ℚ) (res : RaceResult) :
    Except String TranscriptionResult × List (String × ProgressEvent) :=
  let tks := tickEvents jobId 15 ticks
  match res with
  | .abortedRejected => (.error "Processing aborted by user", tks)
  | .settled r => (.ok r, tks ++ [(jobId, ⟨.transcribing, 80, "音声変換完了"⟩)])

/-- The body of the `try` of `processAudioFile`: the returned result and the
events emitted, per settlement path.  `sizeStr` is the formatted
`(X.XMB)` fragment of the second preparing message (environment data). -/
def tryBody (audioFilePath jobId sizeStr : String) (out : RunOutcome) :
    TranscriptionResult × List (String × ProgressEvent) :=
  let ev1 : List (String × ProgressEvent) :=
    [(jobId, ⟨.preparing, 5, "ファイルを準備中..."⟩)]
  let prep10 : String × ProgressEvent :=
    (jobId, ⟨.preparing, 10, "ファイル準備完了 (" ++ sizeStr ++ ")"⟩)
  match out with
  | .fileMissing =>
    let msg := "Audio file not found: " ++ audioFilePath
    (errorResult msg, ev1 ++ [catchEvent jobId msg])
  | .statThrows msg =>
    (errorResult msg, ev1 ++ [catchEvent jobId msg])
  | .abortedAtCheckpoint =>
    let msg := "Processing aborted by user"
    (errorResult msg, ev1 ++ [prep10] ++ [catchEvent jobId msg])
  | .raced ticks res =>
    let ev2 := ev1 ++ [prep10] ++
      [(jobId, ⟨.transcribing, 15, "音声をテキストに変換中..."⟩)]
    match transcribeWithProgress jobId ticks res with
    | (.error msg, tks) => (errorResult msg, ev2 ++ tks ++ [catchEvent jobId msg])
    | (.ok r, tks) =>
      if r.success then
        (r, ev2 ++ tks ++ [(jobId, ⟨.complete, 100, "処理完了"⟩)])
      else
        let msg := jsOrDefaultStr r.error "Transcription failed"
        (errorResult msg, ev2 ++ tks ++ [catchEvent jobId msg])

/-- Models `processAudioFile`: register the job, run the `try` body along the
chosen settlement path, and — in the `finally` — deregister the job.
Returns the settled result, the final registry, and the event trace. -/
def processAudioFile (jobs : List String) (audioFilePath : String)
    (jobId : String) (sizeStr : String) (out : RunOutcome) :
    TranscriptionResult × List String × List (String × ProgressEvent) :=
  let jobs1 := registerJob jobs jobId
  let body := tryBody audioFilePath jobId sizeStr out
  (body.1, deregisterJob jobs1 jobId, body.2)

/-- Models `cancelJob`: for a registered job, abort its controller, remove it
from the registry, emit the cancellation progress event, and return true;
unknown jobs return false. -/
def cancelJob (jobs : List String) (jobId : String) :
    Bool × List String × List (String × ProgressEvent) :=
  if jobId ∈ jobs then
    (true, deregisterJob jobs jobId,
     [(jobId, ⟨.error, 0, "ユーザーによりキャンセルされました"⟩)])
  else
    (false, jobs, [])

end AudioProcessor

/-!
The remote-call collaborator `OpenAIClient` of `openai-client.ts` (the cached
variant): `transcribeAudio` and `formatText` consult the shared caches and
the rate limiter before calling the network, and memoize only successful
results.  The awaited network call and file operations are environment
choices (`TranscribeEnv`, `FormatEnv`).
-/

namespace OpenAIClient

open CacheManager

/-- The token-usage payload of a chat completion (contents irrelevant to the
claims, shape kept). -/
structure OpenAIUsage where
  prompt_tokens : Option Nat := none
  completion_tokens : Option Nat := none
  total_tokens : Option Nat := none
deriving Repr, DecidableEq

/-- The `FormatTextResult` shape returned by `formatText`. -/
structure FormatTextResult where
  success : Bool
  formatted_text : Option String := none
  usage : Option OpenAIUsage := none
  model : Option String := none
  error : Option String := none
  details : Option String := none
deriving Repr, DecidableEq

/-- How an awaited axios call fails: an HTTP error response (with the
upstream `error.message` payload, status, and response data), a DNS failure
(`ENOTFOUND`), a timeout (`ETIMEDOUT`), or any other thrown error. -/
inductive CallFailure where
  | response (msg : Option String) (status : Nat) (dataStr : String)
  | dnsNotFound
  | timedOut
  | other (msg : String)
deriving Repr, DecidableEq

/-- The error-message normalization both catch blocks perform. -/
def normalizeError : CallFailure → String
  | .response m status _ => jsOrDefaultStr m ("HTTP " ++ toString status)
  | .dnsNotFound => "Network connection failed"
  | .timedOut => "Request timed out"
  | .other msg => msg

/-- The `details: error.response?.data` payload of `formatText` failures. -/
def failureDetails : CallFailure → Option String
  | .response _ _ d => some d
  | .dnsNotFound => none
  | .timedOut => none
  | .other _ => none

/-- Environment of one `transcribeAudio` run: whether the input file exists,
the outcome of `generateFileKey` (which can throw a read error, carried here
as the thrown message), and the settlement of the Whisper API call as
`(text, duration)`. -/
structure TranscribeEnv where
  fileExists : Bool
  fileHash : Except String String
  api : Except CallFailure (String × Option ℚ)
deriving Repr

/-- Models `OpenAIClient.transcribeAudio` over the transcription cache and
the rate limiter. -/
def transcribeAudio (tc : CacheState AudioProcessor.TranscriptionResult)
    (rl : RateLimiter) (audioFilePath : String)
    (optionsJson : Option (List (String × JsonVal))) (env : TranscribeEnv)
    (now : Nat) :
    AudioProcessor.TranscriptionResult ×
      CacheState AudioProcessor.TranscriptionResult × RateLimiter :=
  if !env.fileExists then
    ({ success := false, error := some ("Audio file not found: " ++ audioFilePath) },
     tc, rl)
  else
    match env.fileHash with
    | .error m => ({ success := false, error := some m }, tc, rl)
    | .ok fileHash =>
      let optionsHash := generateContentKey "" optionsJson
      let cacheKey := fileHash ++ "_" ++ optionsHash
      let looked := get tc cacheKey now
      match looked.1 with
      | some cached => (cached, looked.2, rl)
      | none =>
        let gate := rl.isAllowed (Int.ofNat now)
        if !gate.1 then
          let waitTime := gate.2.getTimeUntilReset (Int.ofNat now)
          ({ success := false,
             error := some ("Rate limit exceeded. Please wait " ++
               toString ((waitTime + 999) / 1000) ++ " seconds.") },
           looked.2, gate.2)
        else
          match env.api with
          | .error f =>
            ({ success := false, error := some (normalizeError f) }, looked.2, gate.2)
          | .ok (text, dur) =>
            let result : AudioProcessor.TranscriptionResult :=
              { success := true, text := some text, duration := dur }
            (result, set looked.2 cacheKey result none now, gate.2)

/-- Environment of one `formatText` run: the settlement of the chat
completion call as `(content, usage, model)`. -/
structure FormatEnv where
  api : Except CallFailure (String × Option OpenAIUsage × String)
deriving Repr

/-- The caller-supplied `FormatTextOptions`; numeric fields carry their
ECMAScript string rendering. -/
structure FormatTextOptions where
  prompt : Option String := none
  model : Option String := none
  temperature : Option String := none
  max_tokens : Option String := none
deriving Repr, DecidableEq

/-- Models `v || d` for an optional number carried as its rendering: only
`undefined` and `0` are falsy. -/
def jsOrDefaultNum (v : Option String) (d : String) : String :=
  match v with
  | none => d
  | some s => if s = "0" then d else s

/-- Models `!!s` for an optional string. -/
def jsTruthyStr (v : Option String) : Bool :=
  match v with
  | none => false
  | some s => s != ""

/-- The options record `formatText` hashes into its cache key. -/
def formatKeyOptions (opts : FormatTextOptions) : List (String × JsonVal) :=
  [("model", .str (jsOrDefaultStr opts.model "gpt-3.5-turbo")),
   ("temperature", .num (jsOrDefaultNum opts.temperature "0.7")),
   ("max_tokens", .num (jsOrDefaultNum opts.max_tokens "2000")),
   ("hasCustomPrompt", .jbool (jsTruthyStr opts.prompt))]

/-- Models `OpenAIClient.formatText` over the formatting cache and the rate
limiter. -/
def formatText (fc : CacheState FormatTextResult) (rl : RateLimiter)
    (text : String) (opts : FormatTextOptions) (env : FormatEnv) (now : Nat) :
    FormatTextResult × CacheState FormatTextResult × RateLimiter :=
  let cacheKey := generateContentKey text (some (formatKeyOptions opts))
  let looked := get fc cacheKey now
  match looked.1 with
  | some cached => (cached, looked.2, rl)
  | none =>
    let gate := rl.isAllowed (Int.ofNat now)
    if !gate.1 then
      let waitTime := gate.2.getTimeUntilReset (Int.ofNat now)
      ({ success := false,
         error := some ("Rate limit exceeded. Please wait " ++
           toString ((waitTime + 999) / 1000) ++ " seconds.") },
       looked.2, gate.2)
    else
      match env.api with
      | .error f =>
        ({ success := false, error := some (normalizeError f),
           details := failureDetails f }, looked.2, gate.2)
      | .ok (content, usage, model) =>
        let result : FormatTextResult :=
          { success := true, formatted_text := some content,
            usage := usage, model := some model }
        (result, set looked.2 cacheKey result none now, gate.2)

end OpenAIClient

/-!
Supporting lemmas about the cache operations, then the claim theorems.
-/

/-- String containment, as used for the `"aborted"` markers. -/
def strContains (hay needle : String) : Prop :=
  ∃ pre post, hay = pre ++ needle ++ post

namespace CacheManager

theorem find?_updateFirst {T : Type} (l : List (String × CacheEntry T)) (k : String)
    (f : CacheEntry T → CacheEntry T) :
    (updateFirst l k f).find? (fun p => p.1 == k) =
      (l.find? (fun p => p.1 == k)).map (fun q => (q.1, f q.2)) := by
  induction l with
  | nil => rfl
  | cons p rest ih =>
    cases hpk : (p.1 == k) with
    | true => simp [updateFirst, hpk, List.find?_cons]
    | false => simp [updateFirst, hpk, List.find?_cons, ih]

theorem find?_filter_none {T : Type} (l : List (String × CacheEntry T))
    (pk : String × CacheEntry T → Bool) (q : String × CacheEntry T → Bool)
    (h : l.find? pk = none) : (l.filter q).find? pk = none := by
  rw [List.find?_eq_none] at h ⊢
  exact fun x hx => h x (List.mem_of_mem_filter hx)

theorem find?_append_none {α : Type} (l1 l2 : List α) (p : α → Bool)
    (h : l1.find? p = none) : (l1 ++ l2).find? p = l2.find? p := by
  induction l1 with
  | nil => rfl
  | cons a rest ih =>
    rw [List.find?_eq_none] at h
    have ha : p a = false := by
      have := h a (by simp)
      simp only [Bool.not_eq_true] at this
      exact this
    have hrest : rest.find? p = none := by
      rw [List.find?_eq_none]
      exact fun x hx => h x (by simp [hx])
    simp [List.find?_cons, ha, ih hrest]

theorem evictOldest_entries_cases {T : Type} (c : CacheState T) :
    (evictOldest c).entries = c.entries ∨
      ∃ q, (evictOldest c).entries = c.entries.filter q := by
  unfold evictOldest
  split
  · exact Or.inl rfl
  · split
    · exact Or.inl rfl
    · split
      · exact Or.inl rfl
      · exact Or.inr ⟨_, rfl⟩

theorem set_find_self {T : Type} (c : CacheState T) (k : String) (v : T)
    (t? : Option Nat) (now : Nat) :
    ∃ n, ((set c k v t? now).entries.find? (fun p => p.1 == k)) =
      some (k, { data := v, timestamp := now, ttl := jsOrDefault t? c.defaultTtl,
                 accessCount := n, lastAccessed := now }) := by
  by_cases hs : (c.entries.find? (fun p => p.1 == k)).isSome
  · obtain ⟨q, hq⟩ := Option.isSome_iff_exists.mp hs
    have hqk : q.1 = k := by
      have := List.find?_some hq
      simpa using this
    refine ⟨q.2.accessCount + 1, ?_⟩
    simp only [set, hs, if_true]
    rw [find?_updateFirst, hq]
    simp [hqk]
  · have hnone : c.entries.find? (fun p => p.1 == k) = none :=
      Option.not_isSome_iff_eq_none.mp hs
    refine ⟨1, ?_⟩
    have h1 : (if c.maxSize ≤ c.entries.length then evictOldest c else c).entries.find?
        (fun p => p.1 == k) = none := by
      split
      · rcases evictOldest_entries_cases c with h | ⟨q, h⟩
        · rw [h]; exact hnone
        · rw [h]; exact find?_filter_none _ _ _ hnone
      · exact hnone
    simp only [set]
    rw [if_neg hs]
    simp only []
    rw [find?_append_none _ _ _ h1]
    simp [List.find?_cons]

end CacheManager

/-- The cache state used by the capacity counterexample: a full cache (one
entry, `maxSize = 1`) whose only — hence least-recently-accessed — key is the
empty string. -/
def c1FullCache : CacheManager.CacheState Nat :=
  { entries := [("", { data := 0, timestamp := 0, ttl := 1000,
                       accessCount := 1, lastAccessed := 0 })],
    maxSize := 1, defaultTtl := 1000 }

/-- C1: the claim that the entry count never exceeds `maxSize` and that a
minimal-`lastAccessed` entry is evicted before each new insert at capacity
fails on the code: `evictOldest` guards the removal with the JavaScript
truthiness test `if (oldestKey)`, which is false for the empty-string key, so
inserting a new key into a full cache whose LRU key is `""` removes nothing
and the size exceeds `maxSize`.  This theorem evaluates `set` at that
failing input. -/
theorem c1_capacity_violated_at_empty_key :
    c1FullCache.maxSize = 1 ∧
    (CacheManager.set c1FullCache "k" 7 none 5).entries.length = 2 := by
  constructor
  · rfl
  · rfl

/-- C2 counterexample: after `set(k, v, 0)` at time 0, a `get(k)` at the
strictly later time 1 returns the stored value and leaves the entry in
place — the explicit `ttl = 0` argument is falsy, so `set` stored the
default ttl and the entry is not immediately eligible for expiry, contrary
to the claim. -/
theorem c2_ttl_zero_not_expired :
    (CacheManager.get
        (CacheManager.set (CacheManager.mkCacheManager Nat none none) "k" 1 (some 0) 0)
        "k" 1).1 = some 1 ∧
    (CacheManager.get
        (CacheManager.set (CacheManager.mkCacheManager Nat none none) "k" 1 (some 0) 0)
        "k" 1).2.entries.length = 1 := by
  constructor
  · rfl
  · rfl

/-- C2 amended: because `0` is falsy in `ttl || this.defaultTtl`, an entry
set with an explicit `ttl = 0` is stored with the default ttl; it is not
immediately eligible for expiry — a `get` at any time up to
`timestamp + defaultTtl` returns the stored value. -/
theorem c2_amended_ttl_zero_stores_default {T : Type} (c : CacheManager.CacheState T)
    (k : String) (v : T) (t t' : Nat) (h : t' ≤ t + c.defaultTtl) :
    (∃ n, ((CacheManager.set c k v (some 0) t).entries.find? (fun p => p.1 == k)) =
      some (k, { data := v, timestamp := t, ttl := c.defaultTtl,
                 accessCount := n, lastAccessed := t })) ∧
    (CacheManager.get (CacheManager.set c k v (some 0) t) k t').1 = some v := by
  obtain ⟨n, hf⟩ := CacheManager.set_find_self c k v (some 0) t
  rw [show jsOrDefault (some 0) c.defaultTtl = c.defaultTtl from rfl] at hf
  refine ⟨⟨n, hf⟩, ?_⟩
  simp only [CacheManager.get]
  rw [hf]
  simp [Nat.not_lt.mpr h]

/-- Witness for the amended C2 at a concrete input. -/
theorem c2_amended_witness :
    (5 : Nat) ≤ 0 + (CacheManager.mkCacheManager Nat none none).defaultTtl ∧
    (CacheManager.get
        (CacheManager.set (CacheManager.mkCacheManager Nat none none) "k" 9 (some 0) 0)
        "k" 5).1 = some 9 :=
  ⟨by decide,
   (c2_amended_ttl_zero_stores_default (CacheManager.mkCacheManager Nat none none)
      "k" 9 0 5 (by decide)).2⟩

/-- C6: a `set(k, v)` with the default ttl followed by a `get(k)` at any time
before that ttl elapses returns `v`. -/
theorem c6_set_get_roundtrip {T : Type} (c : CacheManager.CacheState T)
    (k : String) (v : T) (t t' : Nat) (h : t' ≤ t + c.defaultTtl) :
    (CacheManager.get (CacheManager.set c k v none t) k t').1 = some v := by
  obtain ⟨n, hf⟩ := CacheManager.set_find_self c k v none t
  simp only [CacheManager.get]
  rw [show jsOrDefault none c.defaultTtl = c.defaultTtl from rfl] at hf
  rw [hf]
  simp [Nat.not_lt.mpr h]

/-- Witness for C6 at a concrete input. -/
theorem c6_witness :
    (3 : Nat) ≤ 2 + (CacheManager.mkCacheManager Nat none none).defaultTtl ∧
    (CacheManager.get
        (CacheManager.set (CacheManager.mkCacheManager Nat none none) "k" 42 none 2)
        "k" 3).1 = some 42 :=
  ⟨by decide,
   c6_set_get_roundtrip (CacheManager.mkCacheManager Nat none none) "k" 42 2 3 (by decide)⟩

/-- C9: `has` agrees with `get` — it reports true exactly when `get` returns a
value, carries out the same state change (it is literally `get(key) !== null`
in the source), removes the entry when expired, and bumps `accessCount` and
`lastAccessed` otherwise. -/
theorem c9_has_equiv_get {T : Type} (c : CacheManager.CacheState T)
    (k : String) (now : Nat) :
    ((CacheManager.has c k now).1 = true ↔ (CacheManager.get c k now).1 ≠ none) ∧
    (CacheManager.has c k now).2 = (CacheManager.get c k now).2 ∧
    (∀ e : CacheManager.CacheEntry T,
       c.entries.find? (fun p => p.1 == k) = some (k, e) →
       e.timestamp + e.ttl < now →
       (CacheManager.has c k now).2.entries.find? (fun p => p.1 == k) = none) ∧
    (∀ e : CacheManager.CacheEntry T,
       c.entries.find? (fun p => p.1 == k) = some (k, e) →
       ¬(e.timestamp + e.ttl < now) →
       (CacheManager.has c k now).2.entries.find? (fun p => p.1 == k) =
         some (k, { e with accessCount := e.accessCount + 1, lastAccessed := now })) := by
  refine ⟨?_, rfl, ?_, ?_⟩
  · simp [CacheManager.has, Option.isSome_iff_ne_none]
  · intro e hf hexp
    simp only [CacheManager.has, CacheManager.get]
    rw [hf]
    simp only [hexp, if_true]
    rw [List.find?_eq_none]
    intro x hx
    have := List.of_mem_filter hx
    simpa using this
  · intro e hf hfresh
    simp only [CacheManager.has, CacheManager.get]
    rw [hf]
    simp only [hfresh, if_false]
    rw [CacheManager.find?_updateFirst, hf]
    rfl

/-- Witness for C9 at a concrete cache with a live entry. -/
theorem c9_witness :
    ((⟨[("k", ⟨7, 0, 10, 1, 0⟩)], 5, 10⟩ :
        CacheManager.CacheState Nat).entries.find? (fun p => p.1 == "k") =
      some ("k", ⟨7, 0, 10, 1, 0⟩)) ∧
    ¬((0 : Nat) + 10 < 3) ∧
    (CacheManager.has (⟨[("k", ⟨7, 0, 10, 1, 0⟩)], 5, 10⟩ :
        CacheManager.CacheState Nat) "k" 3).2.entries.find? (fun p => p.1 == "k") =
      some ("k", ⟨7, 0, 10, 2, 3⟩) :=
  ⟨by decide, by decide,
   (c9_has_equiv_get (⟨[("k", ⟨7, 0, 10, 1, 0⟩)], 5, 10⟩ :
      CacheManager.CacheState Nat) "k" 3).2.2.2 ⟨7, 0, 10, 1, 0⟩ (by decide) (by decide)⟩

/-- The pruned window `isAllowed` computes first: the recorded timestamps
still strictly inside the trailing window. -/
def prunedCalls (rl : RateLimiter) (now : Int) : List Int :=
  rl.calls.filter (fun ts => decide (now - ts < rl.windowMs))

/-- The concrete `RateLimiter(3, 1000)` scenario of the claim. -/
def rlDemo0 : RateLimiter := { calls := [], maxCalls := 3, windowMs := 1000 }

/-- First immediate call of the scenario. -/
def rlDemo1 : Bool × RateLimiter := RateLimiter.isAllowed rlDemo0 0

/-- Second immediate call of the scenario. -/
def rlDemo2 : Bool × RateLimiter := RateLimiter.isAllowed rlDemo1.2 0

/-- Third immediate call of the scenario. -/
def rlDemo3 : Bool × RateLimiter := RateLimiter.isAllowed rlDemo2.2 0

/-- Fourth immediate call of the scenario. -/
def rlDemo4 : Bool × RateLimiter := RateLimiter.isAllowed rlDemo3.2 0

/-- Call of the scenario after the window has elapsed. -/
def rlDemo5 : Bool × RateLimiter := RateLimiter.isAllowed rlDemo4.2 1000

/-- C5: `isAllowed` prunes timestamps outside the window, allows and records
`now` exactly when the pruned count is below `maxCalls`, records nothing on
rejection, retains at most `maxCalls` timestamps, and realizes the
`RateLimiter(3, 1000)` scenario `true, true, true, false`, then `true` after
1000 ms. -/
theorem c5_isAllowed_spec :
    (∀ rl now, ((RateLimiter.isAllowed rl now).1 = true ↔
       (prunedCalls rl now).length < rl.maxCalls)) ∧
    (∀ rl now, (RateLimiter.isAllowed rl now).2.calls =
       if (prunedCalls rl now).length < rl.maxCalls then prunedCalls rl now ++ [now]
       else prunedCalls rl now) ∧
    (∀ rl (now ts : Int), ts ∈ (RateLimiter.isAllowed rl now).2.calls →
       now - ts < rl.windowMs ∨ ts = now) ∧
    (∀ rl now, rl.calls.length ≤ rl.maxCalls →
       (RateLimiter.isAllowed rl now).2.calls.length ≤ rl.maxCalls) ∧
    (rlDemo1.1 = true ∧ rlDemo2.1 = true ∧ rlDemo3.1 = true ∧
     rlDemo4.1 = false ∧ rlDemo5.1 = true) := by
  refine ⟨?_, ?_, ?_, ?_, ?_⟩
  · intro rl now
    simp only [RateLimiter.isAllowed, prunedCalls]
    split
    · next h => simp [h]
    · next h => simp [h]
  · intro rl now
    simp only [RateLimiter.isAllowed, prunedCalls]
    split
    · next h => simp [h]
    · next h => simp [h]
  · intro rl now ts hmem
    simp only [RateLimiter.isAllowed] at hmem
    split at hmem
    · simp only [List.mem_append, List.mem_singleton] at hmem
      rcases hmem with hmem | hmem
      · exact Or.inl (by simpa using List.of_mem_filter hmem)
      · exact Or.inr hmem
    · exact Or.inl (by simpa using List.of_mem_filter hmem)
  · intro rl now hlen
    simp only [RateLimiter.isAllowed]
    split
    · next hlt =>
      simp only [List.length_append, List.length_singleton]
      omega
    · calc (rl.calls.filter (fun ts => decide (now - ts < rl.windowMs))).length
          ≤ rl.calls.length := List.length_filter_le _ _
        _ ≤ rl.maxCalls := hlen
  · refine ⟨by decide, by decide, by decide, by decide, by decide⟩

/-- Witness for C5: the retained-timestamp bound applied to the concrete
scenario limiter. -/
theorem c5_witness :
    rlDemo0.calls.length ≤ rlDemo0.maxCalls ∧
    (RateLimiter.isAllowed rlDemo0 0).2.calls.length ≤ rlDemo0.maxCalls :=
  ⟨by decide, c5_isAllowed_spec.2.2.2.1 rlDemo0 0 (by decide)⟩

/-- C3: `processAudioFile` registers the job id first, so `getCurrentJobs`
contains it while the run is unresolved; the final registry is exactly the
registered registry with the job id removed, on every settlement path, so
`getCurrentJobs` no longer contains it once the result settles. -/
theorem c3_registry_cleanup (jobs : List String) (path jobId sizeStr : String)
    (out : AudioProcessor.RunOutcome) :
    jobId ∈ AudioProcessor.getCurrentJobs (AudioProcessor.registerJob jobs jobId) ∧
    (AudioProcessor.processAudioFile jobs path jobId sizeStr out).2.1 =
      AudioProcessor.deregisterJob (AudioProcessor.registerJob jobs jobId) jobId ∧
    jobId ∉ AudioProcessor.getCurrentJobs
      ((AudioProcessor.processAudioFile jobs path jobId sizeStr out).2.1) := by
  refine ⟨?_, rfl, ?_⟩
  · simp only [AudioProcessor.registerJob, AudioProcessor.getCurrentJobs]
    split
    · assumption
    · simp
  · intro hmem
    simp only [AudioProcessor.processAudioFile, AudioProcessor.deregisterJob,
      AudioProcessor.getCurrentJobs] at hmem
    have := List.of_mem_filter hmem
    simp at this

namespace AudioProcessor

theorem tickEvents_spec (jobId : String) (ticks : List ℚ) :
    ∀ (p : ℚ), ∀ e ∈ tickEvents jobId p ticks,
      e.1 = jobId ∧ e.2.stage = .transcribing ∧ e.2.progress ≤ 75 := by
  induction ticks with
  | nil =>
    intro p e he
    simp [tickEvents] at he
  | cons inc rest ih =>
    intro p e he
    simp only [tickEvents] at he
    split at he
    · rcases List.mem_cons.mp he with h | h
      · subst h
        exact ⟨rfl, rfl, min_le_right _ _⟩
      · exact ih _ _ h
    · exact ih _ _ he

end AudioProcessor

/-- C8: on every settlement path, the events `processAudioFile` emits for its
job id split into a block of `preparing` events, then a block of
`transcribing` events whose progress values stay strictly below 100, then a
single terminal `complete`-or-`error` event that closes the trace. -/
theorem c8_stage_order (jobs : List String) (path jobId sizeStr : String)
    (out : AudioProcessor.RunOutcome) :
    ∃ pre mid last,
      (AudioProcessor.processAudioFile jobs path jobId sizeStr out).2.2 =
        pre ++ mid ++ [last] ∧
      (∀ e ∈ pre, e.1 = jobId ∧ e.2.stage = AudioProcessor.Stage.preparing) ∧
      (∀ e ∈ mid, e.1 = jobId ∧ e.2.stage = AudioProcessor.Stage.transcribing ∧
        e.2.progress < 100) ∧
      last.1 = jobId ∧
      (last.2.stage = AudioProcessor.Stage.complete ∨
       last.2.stage = AudioProcessor.Stage.error) := by
  have tick100 : ∀ e ∈ AudioProcessor.tickEvents jobId 15 (match out with
      | .raced ticks _ => ticks
      | _ => []), e.1 = jobId ∧ e.2.stage = AudioProcessor.Stage.transcribing ∧
        e.2.progress < 100 := by
    intro e he
    obtain ⟨h1, h2, h3⟩ := AudioProcessor.tickEvents_spec jobId _ _ e he
    exact ⟨h1, h2, lt_of_le_of_lt h3 (by norm_num)⟩
  cases out with
  | fileMissing =>
    refine ⟨[(jobId, ⟨.preparing, 5, "ファイルを準備中..."⟩)], [],
      AudioProcessor.catchEvent jobId ("Audio file not found: " ++ path), ?_, ?_, ?_, rfl, Or.inr rfl⟩
    · simp [AudioProcessor.processAudioFile, AudioProcessor.tryBody]
    · intro e he
      rw [List.mem_singleton] at he
      subst he
      exact ⟨rfl, rfl⟩
    · intro e he
      simp at he
  | statThrows msg =>
    refine ⟨[(jobId, ⟨.preparing, 5, "ファイルを準備中..."⟩)], [],
      AudioProcessor.catchEvent jobId msg, ?_, ?_, ?_, rfl, Or.inr rfl⟩
    · simp [AudioProcessor.processAudioFile, AudioProcessor.tryBody]
    · intro e he
      rw [List.mem_singleton] at he
      subst he
      exact ⟨rfl, rfl⟩
    · intro e he
      simp at he
  | abortedAtCheckpoint =>
    refine ⟨[(jobId, ⟨.preparing, 5, "ファイルを準備中..."⟩),
      (jobId, ⟨.preparing, 10, "ファイル準備完了 (" ++ sizeStr ++ ")"⟩)], [],
      AudioProcessor.catchEvent jobId "Processing aborted by user", ?_, ?_, ?_, rfl, Or.inr rfl⟩
    · simp [AudioProcessor.processAudioFile, AudioProcessor.tryBody]
    · intro e he
      rcases List.mem_cons.mp he with h | h
      · subst h; exact ⟨rfl, rfl⟩
      · rw [List.mem_singleton] at h
        subst h; exact ⟨rfl, rfl⟩
    · intro e he
      simp at he
  | raced ticks res =>
    cases res with
    | abortedRejected =>
      refine ⟨[(jobId, ⟨.preparing, 5, "ファイルを準備中..."⟩),
        (jobId, ⟨.preparing, 10, "ファイル準備完了 (" ++ sizeStr ++ ")"⟩)],
        (jobId, ⟨.transcribing, 15, "音声をテキストに変換中..."⟩)
          :: AudioProcessor.tickEvents jobId 15 ticks,
        AudioProcessor.catchEvent jobId "Processing aborted by user", ?_, ?_, ?_, rfl, Or.inr rfl⟩
      · simp [AudioProcessor.processAudioFile, AudioProcessor.tryBody,
          AudioProcessor.transcribeWithProgress]
      · intro e he
        rcases List.mem_cons.mp he with h | h
        · subst h; exact ⟨rfl, rfl⟩
        · rw [List.mem_singleton] at h
          subst h; exact ⟨rfl, rfl⟩
      · intro e he
        rcases List.mem_cons.mp he with h | h
        · subst h; exact ⟨rfl, rfl, by norm_num⟩
        · exact tick100 e h
    | settled r =>
      cases hr : r.success with
      | true =>
        refine ⟨[(jobId, ⟨.preparing, 5, "ファイルを準備中..."⟩),
          (jobId, ⟨.preparing, 10, "ファイル準備完了 (" ++ sizeStr ++ ")"⟩)],
          (jobId, ⟨.transcribing, 15, "音声をテキストに変換中..."⟩)
            :: (AudioProcessor.tickEvents jobId 15 ticks ++
                [(jobId, ⟨.transcribing, 80, "音声変換完了"⟩)]),
          (jobId, ⟨.complete, 100, "処理完了"⟩), ?_, ?_, ?_, rfl, Or.inl rfl⟩
        · simp [AudioProcessor.processAudioFile, AudioProcessor.tryBody,
            AudioProcessor.transcribeWithProgress, hr]
        · intro e he
          rcases List.mem_cons.mp he with h | h
          · subst h; exact ⟨rfl, rfl⟩
          · rw [List.mem_singleton] at h
            subst h; exact ⟨rfl, rfl⟩
        · intro e he
          rcases List.mem_cons.mp he with h | h
          · subst h; exact ⟨rfl, rfl, by norm_num⟩
          · rcases List.mem_append.mp h with h2 | h2
            · exact tick100 e h2
            · rw [List.mem_singleton] at h2
              subst h2; exact ⟨rfl, rfl, by norm_num⟩
      | false =>
        refine ⟨[(jobId, ⟨.preparing, 5, "ファイルを準備中..."⟩),
          (jobId, ⟨.preparing, 10, "ファイル準備完了 (" ++ sizeStr ++ ")"⟩)],
          (jobId, ⟨.transcribing, 15, "音声をテキストに変換中..."⟩)
            :: (AudioProcessor.tickEvents jobId 15 ticks ++
                [(jobId, ⟨.transcribing, 80, "音声変換完了"⟩)]),
          AudioProcessor.catchEvent jobId (jsOrDefaultStr r.error "Transcription failed"),
          ?_, ?_, ?_, rfl, Or.inr rfl⟩
        · simp [AudioProcessor.processAudioFile, AudioProcessor.tryBody,
            AudioProcessor.transcribeWithProgress, hr]
        · intro e he
          rcases List.mem_cons.mp he with h | h
          · subst h; exact ⟨rfl, rfl⟩
          · rw [List.mem_singleton] at h
            subst h; exact ⟨rfl, rfl⟩
        · intro e he
          rcases List.mem_cons.mp he with h | h
          · subst h; exact ⟨rfl, rfl, by norm_num⟩
          · rcases List.mem_append.mp h with h2 | h2
            · exact tick100 e h2
            · rw [List.mem_singleton] at h2
              subst h2; exact ⟨rfl, rfl, by norm_num⟩

/-- C4: cancelling a registered in-flight job makes `cancelJob` return true;
the cancelled run settles with `success = false` and an error containing
"aborted", and emits an `error`-stage progress event with progress 0 whose
message contains "aborted"; `cancelJob` on an unknown job id returns false.
A job is cancelled in flight when the abort either trips the explicit
checkpoint or wins the race against the remote call. -/
theorem c4_cancellation :
    (∀ (jobs : List String) (jobId : String), jobId ∈ jobs →
       (AudioProcessor.cancelJob jobs jobId).1 = true) ∧
    (∀ (jobs : List String) (jobId : String), jobId ∉ jobs →
       (AudioProcessor.cancelJob jobs jobId).1 = false) ∧
    (∀ (jobs : List String) (path jobId sizeStr : String)
       (out : AudioProcessor.RunOutcome),
       (out = .abortedAtCheckpoint ∨
        ∃ ticks, out = .raced ticks .abortedRejected) →
       (AudioProcessor.processAudioFile jobs path jobId sizeStr out).1.success = false ∧
       (∃ msg, (AudioProcessor.processAudioFile jobs path jobId sizeStr out).1.error =
           some msg ∧ strContains msg "aborted") ∧
       (∃ ev ∈ (AudioProcessor.processAudioFile jobs path jobId sizeStr out).2.2,
          ev.1 = jobId ∧ ev.2.stage = AudioProcessor.Stage.error ∧
          ev.2.progress = 0 ∧ strContains ev.2.message "aborted")) := by
  refine ⟨?_, ?_, ?_⟩
  · intro jobs jobId h
    simp [AudioProcessor.cancelJob, h]
  · intro jobs jobId h
    simp [AudioProcessor.cancelJob, h]
  · intro jobs path jobId sizeStr out hout
    have habort : strContains "Processing aborted by user" "aborted" :=
      ⟨"Processing ", " by user", by decide⟩
    have hcatch : strContains "処理エラー: Processing aborted by user" "aborted" :=
      ⟨"処理エラー: Processing ", " by user", by decide⟩
    rcases hout with h | ⟨ticks, h⟩ <;> subst h
    · refine ⟨rfl, ⟨"Processing aborted by user", rfl, habort⟩,
        ⟨AudioProcessor.catchEvent jobId "Processing aborted by user", ?_, rfl, rfl, rfl, hcatch⟩⟩
      simp [AudioProcessor.processAudioFile, AudioProcessor.tryBody,
        AudioProcessor.catchEvent]
    · refine ⟨rfl, ⟨"Processing aborted by user", rfl, habort⟩,
        ⟨AudioProcessor.catchEvent jobId "Processing aborted by user", ?_, rfl, rfl, rfl, hcatch⟩⟩
      simp [AudioProcessor.processAudioFile, AudioProcessor.tryBody,
        AudioProcessor.transcribeWithProgress, AudioProcessor.catchEvent]

/-- Witness for C4: the concrete job `"j"` cancelled at the checkpoint, plus
both return values of `cancelJob`. -/
theorem c4_witness :
    ("j" ∈ (["j"] : List String) ∧
     (AudioProcessor.cancelJob ["j"] "j").1 = true) ∧
    ("x" ∉ (["j"] : List String) ∧
     (AudioProcessor.cancelJob ["j"] "x").1 = false) ∧
    ((AudioProcessor.processAudioFile [] "p" "j" "1.0MB"
        AudioProcessor.RunOutcome.abortedAtCheckpoint).1.success = false ∧
     (∃ msg, (AudioProcessor.processAudioFile [] "p" "j" "1.0MB"
        AudioProcessor.RunOutcome.abortedAtCheckpoint).1.error = some msg ∧
        strContains msg "aborted") ∧
     (∃ ev ∈ (AudioProcessor.processAudioFile [] "p" "j" "1.0MB"
        AudioProcessor.RunOutcome.abortedAtCheckpoint).2.2,
        ev.1 = "j" ∧ ev.2.stage = AudioProcessor.Stage.error ∧
        ev.2.progress = 0 ∧ strContains ev.2.message "aborted")) :=
  ⟨⟨by decide, c4_cancellation.1 ["j"] "j" (by decide)⟩,
   ⟨by decide, c4_cancellation.2.1 ["j"] "x" (by decide)⟩,
   c4_cancellation.2.2 [] "p" "j" "1.0MB"
     AudioProcessor.RunOutcome.abortedAtCheckpoint (Or.inl rfl)⟩

namespace Sha256

theorem hexDigitChar_mem (n : Nat) : hexDigitChar n ∈ hexChars := by
  unfold hexDigitChar
  have h : n % 16 < hexChars.length := Nat.mod_lt _ (by norm_num)
  rw [List.getD_eq_getElem _ _ h]
  exact List.getElem_mem h

theorem hexFold_length (bs : List Nat) :
    (bs.foldr (fun b acc => hexDigitChar (b / 16) :: hexDigitChar (b % 16) :: acc)
      ([] : List Char)).length = 2 * bs.length := by
  induction bs with
  | nil => rfl
  | cons b rest ih =>
    simp only [List.foldr_cons, List.length_cons, ih]
    omega

theorem hexFold_mem (bs : List Nat) :
    ∀ ch ∈ bs.foldr (fun b acc => hexDigitChar (b / 16) :: hexDigitChar (b % 16) :: acc)
      ([] : List Char), ch ∈ hexChars := by
  induction bs with
  | nil => intro ch h; simp at h
  | cons b rest ih =>
    intro ch h
    simp only [List.foldr_cons, List.mem_cons] at h
    rcases h with h | h | h
    · subst h; exact hexDigitChar_mem _
    · subst h; exact hexDigitChar_mem _
    · exact ih ch h

theorem digestBytes_length (st : Regs) : (digestBytes st).length = 32 := by
  simp [digestBytes, wordBytes]

theorem sha256Hex_length (m : List Nat) : (sha256Hex m).length = 64 := by
  show (bytesToHex (sha256Bytes m)).data.length = 64
  rw [show (bytesToHex (sha256Bytes m)).data =
    (sha256Bytes m).foldr
      (fun b acc => hexDigitChar (b / 16) :: hexDigitChar (b % 16) :: acc) [] from rfl]
  rw [hexFold_length, show (sha256Bytes m).length = 32 from digestBytes_length _]

theorem sha256Hex_chars (m : List Nat) :
    ∀ ch ∈ (sha256Hex m).data, ch ∈ hexChars :=
  hexFold_mem _

end Sha256

/-- C7: `generateContentKey` is deterministic over values — equal content and
options (as ordered JavaScript records, whose field order is part of the
object value) give equal keys; every key is a 64-character string of
lowercase hex digits; and changing only the `temperature` option from 0.5 to
0.7 changes the key. -/
theorem c7_content_key_deterministic :
    (∀ (c1 c2 : String) (o1 o2 : Option (List (String × JsonVal))),
       c1 = c2 → o1 = o2 →
       CacheManager.generateContentKey c1 o1 = CacheManager.generateContentKey c2 o2) ∧
    (∀ c o, (CacheManager.generateContentKey c o).length = 64 ∧
       ∀ ch ∈ (CacheManager.generateContentKey c o).data, ch ∈ Sha256.hexChars) ∧
    CacheManager.generateContentKey "same text" (some [("temperature", JsonVal.num "0.5")]) ≠
      CacheManager.generateContentKey "same text" (some [("temperature", JsonVal.num "0.7")]) := by
  refine ⟨?_, ?_, ?_⟩
  · intro c1 c2 o1 o2 h1 h2
    rw [h1, h2]
  · intro c o
    exact ⟨Sha256.sha256Hex_length _, Sha256.sha256Hex_chars _⟩
  · decide

/-- Witness for C7 at concrete content and options. -/
theorem c7_witness :
    CacheManager.generateContentKey "a" none = CacheManager.generateContentKey "a" none ∧
    (CacheManager.generateContentKey "a" none).length = 64 :=
  ⟨c7_content_key_deterministic.1 "a" "a" none none rfl rfl,
   (c7_content_key_deterministic.2.1 "a" none).1⟩

namespace CacheManager

/-- The stored payloads of a cache, in entry order. -/
def cacheDatas {T : Type} (c : CacheState T) : List T :=
  c.entries.map (fun p => p.2.data)

theorem updateFirst_map_data {T : Type} (l : List (String × CacheEntry T))
    (k : String) (f : CacheEntry T → CacheEntry T)
    (hf : ∀ e, (f e).data = e.data) :
    (updateFirst l k f).map (fun p => p.2.data) = l.map (fun p => p.2.data) := by
  induction l with
  | nil => rfl
  | cons p rest ih =>
    simp only [updateFirst]
    split
    · simp [hf]
    · simp [ih]

theorem updateFirst_map_data_mem {T : Type} (l : List (String × CacheEntry T))
    (k : String) (f : CacheEntry T → CacheEntry T) (x : T)
    (h : x ∈ (updateFirst l k f).map (fun p => p.2.data)) :
    (∃ e, x = (f e).data) ∨ x ∈ l.map (fun p => p.2.data) := by
  induction l with
  | nil => simp [updateFirst] at h
  | cons p rest ih =>
    simp only [updateFirst] at h
    split at h
    · simp only [List.map_cons, List.mem_cons] at h
      rcases h with h | h
      · exact Or.inl ⟨p.2, h⟩
      · exact Or.inr (List.mem_cons.mpr (Or.inr h))
    · simp only [List.map_cons, List.mem_cons] at h
      rcases h with h | h
      · exact Or.inr (List.mem_cons.mpr (Or.inl h))
      · rcases ih h with h2 | h2
        · exact Or.inl h2
        · exact Or.inr (List.mem_cons.mpr (Or.inr h2))

theorem mem_datas_get {T : Type} (c : CacheState T) (k : String) (now : Nat)
    (x : T) (h : x ∈ cacheDatas (get c k now).2) : x ∈ cacheDatas c := by
  simp only [cacheDatas] at h ⊢
  simp only [get] at h
  split at h
  · exact h
  · split at h
    · dsimp only at h
      exact List.map_subset _ (List.filter_sublist _).subset h
    · dsimp only at h
      have hu := updateFirst_map_data c.entries k
        (fun e0 => { e0 with accessCount := e0.accessCount + 1, lastAccessed := now })
        (fun e => rfl)
      rw [hu] at h
      exact h

theorem mem_datas_evictOldest {T : Type} (c : CacheState T) (x : T)
    (h : x ∈ cacheDatas (evictOldest c)) : x ∈ cacheDatas c := by
  rcases evictOldest_entries_cases c with he | ⟨q, he⟩ <;>
    simp only [cacheDatas, he] at h ⊢
  · exact h
  · exact List.map_subset _ (List.filter_sublist _).subset h

theorem mem_datas_set {T : Type} (c : CacheState T) (k : String) (v : T)
    (t? : Option Nat) (now : Nat) (x : T)
    (h : x ∈ cacheDatas (set c k v t? now)) : x = v ∨ x ∈ cacheDatas c := by
  simp only [cacheDatas] at h ⊢
  simp only [set] at h
  split at h
  · rcases updateFirst_map_data_mem _ _ _ _ h with ⟨e, he⟩ | h2
    · exact Or.inl he
    · exact Or.inr h2
  · rw [List.map_append, List.mem_append] at h
    rcases h with h | h
    · split at h
      · exact Or.inr (mem_datas_evictOldest c x h)
      · exact Or.inr h
    · simp at h
      exact Or.inl h

end CacheManager

/-- C10: the collaborator memoizes only successes — every payload held in
the transcription or formatting cache after a `transcribeAudio` or
`formatText` call either was already cached or has `success = true`; hence
if every cached payload was a success before the call, that stays true after
it; and the missing-input path returns a failure and leaves the cache
untouched, so failed calls are retried rather than memoized. -/
theorem c10_cache_holds_only_successes :
    (∀ tc rl path opts env now (x : AudioProcessor.TranscriptionResult),
       x ∈ CacheManager.cacheDatas
         (OpenAIClient.transcribeAudio tc rl path opts env now).2.1 →
       x ∈ CacheManager.cacheDatas tc ∨ x.success = true) ∧
    (∀ fc rl text opts env now (x : OpenAIClient.FormatTextResult),
       x ∈ CacheManager.cacheDatas
         (OpenAIClient.formatText fc rl text opts env now).2.1 →
       x ∈ CacheManager.cacheDatas fc ∨ x.success = true) ∧
    (∀ tc rl path opts env now,
       (∀ r ∈ CacheManager.cacheDatas tc, r.success = true) →
       ∀ r ∈ CacheManager.cacheDatas
         (OpenAIClient.transcribeAudio tc rl path opts env now).2.1,
         r.success = true) ∧
    (∀ fc rl text opts env now,
       (∀ r ∈ CacheManager.cacheDatas fc, r.success = true) →
       ∀ r ∈ CacheManager.cacheDatas
         (OpenAIClient.formatText fc rl text opts env now).2.1,
         r.success = true) ∧
    (∀ tc rl path opts env now, env.fileExists = false →
       (OpenAIClient.transcribeAudio tc rl path opts env now).1.success = false ∧
       (OpenAIClient.transcribeAudio tc rl path opts env now).2.1 = tc) := by
  have t1 : ∀ tc rl path opts env now (x : AudioProcessor.TranscriptionResult),
      x ∈ CacheManager.cacheDatas
        (OpenAIClient.transcribeAudio tc rl path opts env now).2.1 →
      x ∈ CacheManager.cacheDatas tc ∨ x.success = true := by
    intro tc rl path opts env now x h
    obtain ⟨fe, fhash, api⟩ := env
    cases fe with
    | false =>
      simp [OpenAIClient.transcribeAudio] at h
      exact Or.inl h
    | true =>
      cases fhash with
      | error m =>
        simp [OpenAIClient.transcribeAudio] at h
        exact Or.inl h
      | ok fh =>
        cases hlook : (CacheManager.get tc
            (fh ++ "_" ++ CacheManager.generateContentKey "" opts) now).1 with
        | some cached =>
          simp only [OpenAIClient.transcribeAudio] at h
          rw [hlook] at h
          simp at h
          exact Or.inl (CacheManager.mem_datas_get _ _ _ _ h)
        | none =>
          cases hg : (rl.isAllowed (Int.ofNat now)).1 with
          | false =>
            simp only [OpenAIClient.transcribeAudio] at h
            rw [hlook] at h
            rw [hg] at h
            simp at h
            exact Or.inl (CacheManager.mem_datas_get _ _ _ _ h)
          | true =>
            cases api with
            | error f =>
              simp only [OpenAIClient.transcribeAudio] at h
              rw [hlook] at h
              rw [hg] at h
              simp at h
              exact Or.inl (CacheManager.mem_datas_get _ _ _ _ h)
            | ok pr =>
              obtain ⟨text, dur⟩ := pr
              simp only [OpenAIClient.transcribeAudio] at h
              rw [hlook] at h
              rw [hg] at h
              simp at h
              rcases CacheManager.mem_datas_set _ _ _ _ _ _ h with h2 | h2
              · subst h2
                exact Or.inr rfl
              · exact Or.inl (CacheManager.mem_datas_get _ _ _ _ h2)
  have t2 : ∀ fc rl text opts env now (x : OpenAIClient.FormatTextResult),
      x ∈ CacheManager.cacheDatas
        (OpenAIClient.formatText fc rl text opts env now).2.1 →
      x ∈ CacheManager.cacheDatas fc ∨ x.success = true := by
    intro fc rl text opts env now x h
    obtain ⟨api⟩ := env
    cases hlook : (CacheManager.get fc
        (CacheManager.generateContentKey text
          (some (OpenAIClient.formatKeyOptions opts))) now).1 with
    | some cached =>
      simp only [OpenAIClient.formatText] at h
      rw [hlook] at h
      simp at h
      exact Or.inl (CacheManager.mem_datas_get _ _ _ _ h)
    | none =>
      cases hg : (rl.isAllowed (Int.ofNat now)).1 with
      | false =>
        simp only [OpenAIClient.formatText] at h
        rw [hlook] at h
        rw [hg] at h
        simp at h
        exact Or.inl (CacheManager.mem_datas_get _ _ _ _ h)
      | true =>
        cases api with
        | error f =>
          simp only [OpenAIClient.formatText] at h
          rw [hlook] at h
          rw [hg] at h
          simp at h
          exact Or.inl (CacheManager.mem_datas_get _ _ _ _ h)
        | ok pr =>
          obtain ⟨content, usage, model⟩ := pr
          simp only [OpenAIClient.formatText] at h
          rw [hlook] at h
          rw [hg] at h
          simp at h
          rcases CacheManager.mem_datas_set _ _ _ _ _ _ h with h2 | h2
          · subst h2
            exact Or.inr rfl
          · exact Or.inl (CacheManager.mem_datas_get _ _ _ _ h2)
  refine ⟨t1, t2, ?_, ?_, ?_⟩
  · intro tc rl path opts env now hinv r hr
    rcases t1 tc rl path opts env now r hr with h | h
    · exact hinv r h
    · exact h
  · intro fc rl text opts env now hinv r hr
    rcases t2 fc rl text opts env now r hr with h | h
    · exact hinv r h
    · exact h
  · intro tc rl path opts env now henv
    obtain ⟨fe, fhash, api⟩ := env
    cases fe with
    | false => exact ⟨rfl, rfl⟩
    | true => simp at henv

/-- Witness for C10: a missing input file leaves the (empty) transcription
cache untouched and yields a failure. -/
theorem c10_witness :
    (OpenAIClient.TranscribeEnv.mk false (Except.ok "h")
        (Except.error OpenAIClient.CallFailure.timedOut)).fileExists = false ∧
    (OpenAIClient.transcribeAudio
        (CacheManager.mkCacheManager AudioProcessor.TranscriptionResult none none)
        (RateLimiter.mkRateLimiter 10 60000) "p" none
        (OpenAIClient.TranscribeEnv.mk false (Except.ok "h")
          (Except.error OpenAIClient.CallFailure.timedOut)) 0).1.success = false ∧
    (OpenAIClient.transcribeAudio
        (CacheManager.mkCacheManager AudioProcessor.TranscriptionResult none none)
        (RateLimiter.mkRateLimiter 10 60000) "p" none
        (OpenAIClient.TranscribeEnv.mk false (Except.ok "h")
          (Except.error OpenAIClient.CallFailure.timedOut)) 0).2.1 =
      CacheManager.mkCacheManager AudioProcessor.TranscriptionResult none none :=
  ⟨rfl,
   (c10_cache_holds_only_successes.2.2.2.2
      (CacheManager.mkCacheManager AudioProcessor.TranscriptionResult none none)
      (RateLimiter.mkRateLimiter 10 60000) "p" none
      (OpenAIClient.TranscribeEnv.mk false (Except.ok "h")
        (Except.error OpenAIClient.CallFailure.timedOut)) 0 rfl).1,
   (c10_cache_holds_only_successes.2.2.2.2
      (CacheManager.mkCacheManager AudioProcessor.TranscriptionResult none none)
      (RateLimiter.mkRateLimiter 10 60000) "p" none
      (OpenAIClient.TranscribeEnv.mk false (Except.ok "h")
        (Except.error OpenAIClient.CallFailure.timedOut)) 0 rfl).2⟩

/-!
Supporting development: outside the empty-string-key corner exposed by the
C1 counterexample, the eviction path does keep the cache within `maxSize`,
and no other operation ever grows the entry list.
-/

namespace CacheManager

theorem updateFirst_length {T : Type} (l : List (String × CacheEntry T))
    (k : String) (f : CacheEntry T → CacheEntry T) :
    (updateFirst l k f).length = l.length := by
  induction l with
  | nil => rfl
  | cons p rest ih =>
    simp only [updateFirst]
    split
    · simp
    · simp [ih]

theorem foldl_oldest_mem {T : Type} (k : String) (t : Nat) :
    ∀ (l : List (String × CacheEntry T)) (acc : Option (String × Nat)),
    l.foldl
      (fun acc p =>
        match acc with
        | none => some (p.1, p.2.lastAccessed)
        | some (k0, t0) =>
          if p.2.lastAccessed < t0 then some (p.1, p.2.lastAccessed) else some (k0, t0))
      acc = some (k, t) →
    acc = some (k, t) ∨ ∃ e, (k, e) ∈ l ∧ e.lastAccessed = t := by
  intro l
  induction l with
  | nil =>
    intro acc h
    exact Or.inl h
  | cons p rest ih =>
    intro acc h
    rw [List.foldl_cons] at h
    rcases ih _ h with hstep | ⟨e, he, ht⟩
    · cases acc with
      | none =>
        simp only [Option.some.injEq, Prod.mk.injEq] at hstep
        exact Or.inr ⟨p.2, by simp [hstep.1.symm], hstep.2⟩
      | some kt =>
        obtain ⟨k0, t0⟩ := kt
        simp only at hstep
        split at hstep
        · simp only [Option.some.injEq, Prod.mk.injEq] at hstep
          exact Or.inr ⟨p.2, by simp [hstep.1.symm], hstep.2⟩
        · exact Or.inl hstep
    · exact Or.inr ⟨e, List.mem_cons.mpr (Or.inr he), ht⟩

theorem foldl_oldest_isSome {T : Type} :
    ∀ (l : List (String × CacheEntry T)) (acc : Option (String × Nat)),
    acc.isSome →
    (l.foldl
      (fun acc p =>
        match acc with
        | none => some (p.1, p.2.lastAccessed)
        | some (k0, t0) =>
          if p.2.lastAccessed < t0 then some (p.1, p.2.lastAccessed) else some (k0, t0))
      acc).isSome := by
  intro l
  induction l with
  | nil => intro acc h; exact h
  | cons p rest ih =>
    intro acc h
    rw [List.foldl_cons]
    apply ih
    cases acc with
    | none => simp at h
    | some kt =>
      obtain ⟨k0, t0⟩ := kt
      simp only
      split <;> simp

theorem findOldest_mem {T : Type} (l : List (String × CacheEntry T))
    (k : String) (t : Nat) (h : findOldest l = some (k, t)) :
    ∃ e, (k, e) ∈ l ∧ e.lastAccessed = t := by
  rcases foldl_oldest_mem k t l none h with hacc | hm
  · simp at hacc
  · exact hm

theorem findOldest_isSome_of_ne_nil {T : Type} (l : List (String × CacheEntry T))
    (h : l ≠ []) : (findOldest l).isSome := by
  cases l with
  | nil => exact absurd rfl h
  | cons p rest =>
    unfold findOldest
    rw [List.foldl_cons]
    exact foldl_oldest_isSome rest _ (by simp)

theorem evictOldest_length_lt {T : Type} (c : CacheState T)
    (hne : c.entries ≠ []) (hkeys : ∀ p ∈ c.entries, p.1 ≠ "") :
    (evictOldest c).entries.length < c.entries.length := by
  have hlen0 : ¬(c.entries.length = 0) := by
    simpa [List.length_eq_zero] using hne
  obtain ⟨kt, hkt⟩ :=
    Option.isSome_iff_exists.mp (findOldest_isSome_of_ne_nil c.entries hne)
  obtain ⟨k, t⟩ := kt
  obtain ⟨e, hmem, _⟩ := findOldest_mem c.entries k t hkt
  have hkne : ¬(k = "") := hkeys (k, e) hmem
  unfold evictOldest
  rw [if_neg hlen0, hkt]
  simp only [hkne, if_false]
  apply List.length_filter_lt_length_iff_exists.mpr
  exact ⟨(k, e), hmem, by simp⟩

/-- With `maxSize ≥ 1` (every constructed cache satisfies this) and no
empty-string key stored, `set` keeps the entry count within `maxSize`. -/
theorem set_respects_capacity {T : Type} (c : CacheState T) (k : String)
    (v : T) (t? : Option Nat) (now : Nat)
    (hmax : 1 ≤ c.maxSize) (hlen : c.entries.length ≤ c.maxSize)
    (hkeys : ∀ p ∈ c.entries, p.1 ≠ "") :
    (set c k v t? now).entries.length ≤ c.maxSize := by
  by_cases hs : (c.entries.find? (fun p => p.1 == k)).isSome
  · simp only [set, hs, if_true]
    rw [updateFirst_length]
    exact hlen
  · simp only [set]
    rw [if_neg hs]
    by_cases hcap : c.maxSize ≤ c.entries.length
    · have hne : c.entries ≠ [] := by
        intro hnil
        rw [hnil] at hcap
        simp at hcap
        omega
      have hev := evictOldest_length_lt c hne hkeys
      rw [if_pos hcap]
      simp only [List.length_append, List.length_singleton]
      omega
    · rw [if_neg hcap]
      simp only [List.length_append, List.length_singleton]
      omega

/-- No operation other than `set` ever grows the entry list. -/
theorem other_ops_size_le {T : Type} (c : CacheState T) (k : String) (now : Nat) :
    (get c k now).2.entries.length ≤ c.entries.length ∧
    (has c k now).2.entries.length ≤ c.entries.length ∧
    (deleteKey c k).2.entries.length ≤ c.entries.length ∧
    (clear c).entries.length ≤ c.entries.length ∧
    (cleanup c now).entries.length ≤ c.entries.length := by
  have hg : (get c k now).2.entries.length ≤ c.entries.length := by
    simp only [get]
    split
    · exact le_refl _
    · split
      · exact (List.filter_sublist _).length_le
      · dsimp only
        rw [updateFirst_length]
  refine ⟨hg, hg, ?_, ?_, ?_⟩
  · exact (List.filter_sublist _).length_le
  · simp [clear]
  · exact (List.filter_sublist _).length_le

end CacheManager
